import Mathlib

/-!
# todo_app: the task list of `src/App.jsx`

A shallow embedding of the state-management code of the `App` component:
the task record, the handlers `addTask`, `deleteTask`, `editTask`,
`toggleDone`, the derived `visibleTasks`, the reorder handler `onDragEnd`,
the reminder tick and the start-up load from `localStorage`.

Conventions.
* A time value is the millisecond count of a JavaScript `Date`, an integer.
  `new Date(s)` is a function of the host (it depends on the time zone), so the
  handlers take it as `parse : String → Option Int`, where `none` stands for
  `Invalid Date` (time value `NaN`): every comparison with `NaN` is false.
* One render or one tick reads the clock once: every `new Date()` in it is the
  same `now`.
* The component state `tasks` is threaded explicitly: a handler maps the
  current list to the list it passes to `setTasks`.
* `JSON.parse` is a function of the host too; it is embedded as a reader of the
  JSON grammar, so that the load of line 7 can be evaluated on a text.
-/

namespace TodoApp

/-- The task record built by `addTask` (lines 34-39). -/
structure Task where
  id : String
  text : String
  deadline : String
  done : Bool
  deriving DecidableEq, Repr

/-! ## Date arithmetic -/

/-- The expression `new Date(a) < new Date()` with `a` parsed to `d`: false on `Invalid Date`. -/
def dateLt (d : Option Int) (now : Int) : Bool :=
  match d with
  | none => false
  | some v => decide (v < now)

/-- The expression `new Date(task.deadline) - now` (line 23); `none` is `NaN`. -/
def dateDiff (d : Option Int) (now : Int) : Option Int :=
  match d with
  | none => none
  | some v => some (v - now)

/-- The value of a run of decimal digits; `none` when a character is not a digit. -/
def readDigits (cs : List Char) : Option Nat :=
  cs.foldl
    (fun acc c =>
      match acc with
      | none => none
      | some n => if c.isDigit then some (10 * n + (c.toNat - 48)) else none)
    (some 0)

/-- The number of days in month `m` of year `y` of the Gregorian calendar. -/
def daysInMonth (y m : Nat) : Nat :=
  if m = 2 then
    if (y % 4 = 0 ∧ y % 100 ≠ 0) ∨ y % 400 = 0 then 29 else 28
  else if m = 4 ∨ m = 6 ∨ m = 9 ∨ m = 11 then 30
  else 31

/-- The day number of a Gregorian calendar date, counted from 1970-01-01. -/
def dayNumber (y m d : Int) : Int :=
  let y1 := if m ≤ 2 then y - 1 else y
  let era := y1 / 400
  let yoe := y1 - era * 400
  let mp := if m > 2 then m - 3 else m + 9
  let doy := (153 * mp + 2) / 5 + d - 1
  let doe := yoe * 365 + yoe / 4 - yoe / 100 + doy
  era * 146097 + doe - 719468

/-- A sample host for the concrete examples: its time zone is UTC and its `Date`
constructor reads the format `YYYY-MM-DDTHH:mm`, which is what the
`datetime-local` input of line 110 stores in `deadline`; any other string is
`Invalid Date` here. The general theorems quantify over every `parse`. -/
def parseUTC (s : String) : Option Int :=
  let cs := s.toList
  if cs.length = 16 ∧ cs[4]? = some '-' ∧ cs[7]? = some '-' ∧ cs[10]? = some 'T'
      ∧ cs[13]? = some ':' then
    match readDigits (cs.take 4), readDigits ((cs.drop 5).take 2),
        readDigits ((cs.drop 8).take 2), readDigits ((cs.drop 11).take 2),
        readDigits ((cs.drop 14).take 2) with
    | some y, some m, some d, some h, some mi =>
      if 1 ≤ m ∧ m ≤ 12 ∧ 1 ≤ d ∧ d ≤ daysInMonth y m ∧ h ≤ 23 ∧ mi ≤ 59 then
        some (((dayNumber y m d * 24 + h) * 60 + mi) * 60000)
      else none
    | _, _, _, _, _ => none
  else none

/-! ## Handlers of the task store -/

/-- The handler `addTask` (lines 32-43), with `Date.now()` read as `clock`. -/
def addTask (clock : Nat) (text deadline : String) (tasks : List Task) : List Task :=
  if text = "" ∨ deadline = "" then tasks
  else tasks ++ [{ id := toString clock, text := text, deadline := deadline, done := false }]

/-- The handler `deleteTask` (lines 45-46). -/
def deleteTask (id : String) (tasks : List Task) : List Task :=
  tasks.filter (fun task => task.id != id)

/-- The handler `editTask` (lines 48-52); `newText` is what `prompt` returned,
`none` when the dialog was cancelled. -/
def editTask (id : String) (newText : Option String) (tasks : List Task) : List Task :=
  match newText with
  | none => tasks
  | some s =>
    if s = "" then tasks
    else tasks.map (fun t => if t.id = id then { t with text := s } else t)

/-- The handler `toggleDone` (lines 54-55). -/
def toggleDone (id : String) (tasks : List Task) : List Task :=
  tasks.map (fun t => if t.id = id then { t with done := !t.done } else t)

/-- One user action on the task store. -/
inductive Action where
  | add (clock : Nat) (text deadline : String)
  | delete (id : String)
  | edit (id : String) (newText : Option String)
  | toggle (id : String)
  deriving DecidableEq, Repr

/-- The task list after one action. -/
def step (tasks : List Task) : Action → List Task
  | .add clock text deadline => addTask clock text deadline tasks
  | .delete id => deleteTask id tasks
  | .edit id newText => editTask id newText tasks
  | .toggle id => toggleDone id tasks

/-- The task list after a sequence of actions, starting from the empty list. -/
def run (actions : List Action) : List Task :=
  actions.foldl step []

/-- The clock readings of the add calls of a sequence that create a task. -/
def addClocks (actions : List Action) : List Nat :=
  actions.filterMap (fun a =>
    match a with
    | .add clock text deadline => if text = "" ∨ deadline = "" then none else some clock
    | _ => none)

/-! ## View filter -/

/-- The predicate `isOverdue` (lines 57-58), at current time `now`. -/
def isOverdue (parse : String → Option Int) (now : Int) (task : Task) : Bool :=
  !task.done && dateLt (parse task.deadline) now

/-- The callback of the filter at lines 60-65. -/
def isVisible (parse : String → Option Int) (now : Int) (filter : String) (t : Task) : Bool :=
  if filter = "active" then !t.done && !isOverdue parse now t
  else if filter = "overdue" then isOverdue parse now t
  else if filter = "done" then t.done
  else true

/-- The derived list `visibleTasks` (lines 60-65). -/
def visibleTasks (parse : String → Option Int) (now : Int) (filter : String)
    (tasks : List Task) : List Task :=
  tasks.filter (isVisible parse now filter)

/-! ## Reorder handler -/

/-- The array method `splice(start, deleteCount, ...ins)` for non-negative integer
arguments: the array after the call and the array of removed elements. -/
def splice {α : Type} (xs : List α) (start deleteCount : Nat) (ins : List α) :
    List α × List α :=
  let s := min start xs.length
  let d := min deleteCount (xs.length - s)
  (xs.take s ++ ins ++ xs.drop (s + d), (xs.drop s).take d)

/-- The drop result handed over by the drag-and-drop library: `source.index`
and `destination.index`, the destination being `null` after a cancelled drag. -/
structure DropResult where
  source : Nat
  destination : Option Nat
  deriving DecidableEq, Repr

/-- The elements of an array none of whose slots holds `undefined`; `none` when
some slot does. -/
def allDefined {α : Type} : List (Option α) → Option (List α)
  | [] => some []
  | none :: _ => none
  | some a :: rest =>
    match allDefined rest with
    | none => none
    | some as => some (a :: as)

/-- The handler `onDragEnd` (lines 67-78). An array slot is `none` when it holds
`undefined`: `moved` is `undefined` when `splice` removed nothing, and reading
`t.id` of it at line 74 throws a `TypeError`. -/
def onDragEnd (parse : String → Option Int) (now : Int) (filter : String)
    (tasks : List Task) (result : DropResult) : Except String (List Task) :=
  match result.destination with
  | none => .ok tasks
  | some dst =>
    let items0 : List (Option Task) := (visibleTasks parse now filter tasks).map some
    let r1 := splice items0 result.source 1 []
    let moved : Option Task := r1.2.head?.join
    let r2 := splice r1.1 dst 0 [moved]
    match allDefined r2.1 with
    | none => .error "TypeError"
    | some items =>
      let movedIds := items.map (fun t => t.id)
      let rest := tasks.filter (fun t => !movedIds.contains t.id)
      .ok (items ++ rest)

/-! ## Reminder timer -/

/-- The text of the alert at line 25. -/
def reminderText (task : Task) : String :=
  "Reminder: \"" ++ task.text ++ "\" is due soon!"

/-- The test of line 24 on `diff`. -/
def dueSoon (parse : String → Option Int) (now : Int) (task : Task) : Bool :=
  match dateDiff (parse task.deadline) now with
  | none => false
  | some diff => decide (diff > 0) && decide (diff < 60000)

/-- One tick of the interval callback (lines 21-27): the alerts it raises, in order. -/
def reminderTick (parse : String → Option Int) (now : Int) (tasks : List Task) :
    List String :=
  tasks.foldl
    (fun alerts task => if dueSoon parse now task then alerts ++ [reminderText task] else alerts)
    []

/-! ## Start-up load -/

/-- A value that `JSON.parse` can return. A number is kept as the decimal it was
written as, `(-1)^negative * digits * 10^exponent`; a string and an object key
are kept as their UTF-16 code units; an object keeps its members as written. -/
inductive JSValue where
  | null
  | bool (b : Bool)
  | number (negative : Bool) (digits : Nat) (exponent : Int)
  | string (units : List Nat)
  | array (elems : List JSValue)
  | object (members : List (List Nat × JSValue))

/-- Why a parse stopped: the text is not JSON (`JSON.parse` throws a
`SyntaxError`), or the recursion bound of this embedding was reached. -/
inductive ParseFailure where
  | invalid
  | fuel
  deriving DecidableEq, Repr

/-- The JSON white space characters: tab, line feed, carriage return, space. -/
def isJsonSpace (c : Char) : Bool :=
  c = '\t' || c = '\n' || c = '\r' || c = ' '

/-- The text after its leading white space. -/
def skipSpace : List Char → List Char
  | [] => []
  | c :: cs => if isJsonSpace c then skipSpace cs else c :: cs

/-- The leading decimal digits of a text, and the text after them. -/
def spanDigits : List Char → List Char × List Char
  | [] => ([], [])
  | c :: cs =>
    if c.isDigit then ((c :: (spanDigits cs).1), (spanDigits cs).2) else ([], c :: cs)

/-- The value of a run of decimal digits that `spanDigits` returned. -/
def digitsValue (ds : List Char) : Nat :=
  ds.foldl (fun n c => 10 * n + (c.toNat - 48)) 0

/-- The value of a hexadecimal digit. -/
def hexValue (c : Char) : Option Nat :=
  if c.isDigit then some (c.toNat - 48)
  else if 'a'.toNat ≤ c.toNat ∧ c.toNat ≤ 'f'.toNat then some (c.toNat - 87)
  else if 'A'.toNat ≤ c.toNat ∧ c.toNat ≤ 'F'.toNat then some (c.toNat - 55)
  else none

/-- The UTF-16 code units of a character. -/
def utf16 (c : Char) : List Nat :=
  if c.toNat < 65536 then [c.toNat]
  else [55296 + (c.toNat - 65536) / 1024, 56320 + (c.toNat - 65536) % 1024]

/-- The JSON number at the head of a text,
`-? (0 | [1-9][0-9]*) (. [0-9]+)? ([eE] [+-]? [0-9]+)?`, and the text after it;
`none` when the text does not start with a number. -/
def parseNumber (cs : List Char) : Option (JSValue × List Char) :=
  let neg := cs.head? = some '-'
  let cs1 := if neg then cs.drop 1 else cs
  let ip := if cs1.head? = some '0' then (['0'], cs1.drop 1) else spanDigits cs1
  if ip.1 = [] then none
  else
    let fp :=
      if ip.2.head? = some '.' then some (spanDigits (ip.2.drop 1)) else none
    match fp with
    | some ([], _) => none
    | _ =>
      let fracDigits := match fp with | some f => f.1 | none => []
      let cs2 := match fp with | some f => f.2 | none => ip.2
      let mant := digitsValue (ip.1 ++ fracDigits)
      if cs2.head? = some 'e' ∨ cs2.head? = some 'E' then
        let cs3 := cs2.drop 1
        let eneg := cs3.head? = some '-'
        let cs4 := if cs3.head? = some '-' ∨ cs3.head? = some '+' then cs3.drop 1 else cs3
        let ep := spanDigits cs4
        if ep.1 = [] then none
        else
          let e : Int := if eneg then - (digitsValue ep.1 : Int) else (digitsValue ep.1 : Int)
          some (.number neg mant (e - fracDigits.length), ep.2)
      else some (.number neg mant (- (fracDigits.length : Int)), cs2)

/-- The escape sequence after a backslash: the code unit it stands for and the
number of characters it takes, 1 or, for `uXXXX`, 5; `none` when it is not one
of the JSON escapes. -/
def escapeUnit : List Char → Option (Nat × Nat)
  | [] => none
  | e :: rest =>
    if e = '"' then some (34, 1)
    else if e = '\\' then some (92, 1)
    else if e = '/' then some (47, 1)
    else if e = 'b' then some (8, 1)
    else if e = 'f' then some (12, 1)
    else if e = 'n' then some (10, 1)
    else if e = 'r' then some (13, 1)
    else if e = 't' then some (9, 1)
    else if e = 'u' then
      match rest with
      | h1 :: h2 :: h3 :: h4 :: _ =>
        match hexValue h1, hexValue h2, hexValue h3, hexValue h4 with
        | some a, some b, some c, some d => some (((a * 16 + b) * 16 + c) * 16 + d, 5)
        | _, _, _, _ => none
      | _ => none
    else none

/-- The rest of a JSON string after its opening quote: the code units up to the
closing quote, and the text after it; `none` when the string is not well formed.
The first `skip` characters belong to an escape sequence already read. -/
def parseStringBody : List Char → List Nat → Nat → Option (List Nat × List Char)
  | [], _, _ => none
  | _ :: rest, acc, skip + 1 => parseStringBody rest acc skip
  | c :: rest, acc, 0 =>
    if c = '"' then some (acc, rest)
    else if c = '\\' then
      match escapeUnit rest with
      | none => none
      | some (u, k) => parseStringBody rest (acc ++ [u]) k
    else if c.toNat < 32 then none
    else parseStringBody rest (acc ++ utf16 c) 0

/-- What the recursive descent is reading: one value, the elements of an array
after `[`, or the members of an object after `{`. -/
inductive ParseMode where
  | value
  | elements (acc : List JSValue)
  | members (acc : List (List Nat × JSValue))

/-- The recursive descent over a JSON text. In mode `value` the text starts at
a value, leading white space skipped by the caller. -/
def parseJson : Nat → ParseMode → List Char → Except ParseFailure (JSValue × List Char)
  | 0, _, _ => .error .fuel
  | fuel + 1, .value, cs =>
    match cs with
    | [] => .error .invalid
    | c :: rest =>
      if c = '[' then
        match skipSpace rest with
        | [] => .error .invalid
        | d :: rest1 =>
          if d = ']' then .ok (.array [], rest1)
          else parseJson fuel (.elements []) (d :: rest1)
      else if c = '{' then
        match skipSpace rest with
        | [] => .error .invalid
        | d :: rest1 =>
          if d = '}' then .ok (.object [], rest1)
          else parseJson fuel (.members []) (d :: rest1)
      else if c = '"' then
        match parseStringBody rest [] 0 with
        | some (s, rest1) => .ok (.string s, rest1)
        | none => .error .invalid
      else if c = 't' then
        if rest.take 3 = ['r', 'u', 'e'] then .ok (.bool true, rest.drop 3) else .error .invalid
      else if c = 'f' then
        if rest.take 4 = ['a', 'l', 's', 'e'] then .ok (.bool false, rest.drop 4)
        else .error .invalid
      else if c = 'n' then
        if rest.take 3 = ['u', 'l', 'l'] then .ok (.null, rest.drop 3) else .error .invalid
      else
        match parseNumber (c :: rest) with
        | some r => .ok r
        | none => .error .invalid
  | fuel + 1, .elements acc, cs =>
    match parseJson fuel .value cs with
    | .error e => .error e
    | .ok (v, rest) =>
      match skipSpace rest with
      | [] => .error .invalid
      | d :: rest1 =>
        if d = ',' then parseJson fuel (.elements (acc ++ [v])) (skipSpace rest1)
        else if d = ']' then .ok (.array (acc ++ [v]), rest1)
        else .error .invalid
  | fuel + 1, .members acc, cs =>
    match cs with
    | [] => .error .invalid
    | q :: rest =>
      if q = '"' then
        match parseStringBody rest [] 0 with
        | none => .error .invalid
        | some (key, rest1) =>
          match skipSpace rest1 with
          | [] => .error .invalid
          | colon :: rest2 =>
            if colon = ':' then
              match parseJson fuel .value (skipSpace rest2) with
              | .error e => .error e
              | .ok (v, rest3) =>
                match skipSpace rest3 with
                | [] => .error .invalid
                | d :: rest4 =>
                  if d = ',' then
                    parseJson fuel (.members (acc ++ [(key, v)])) (skipSpace rest4)
                  else if d = '}' then .ok (.object (acc ++ [(key, v)]), rest4)
                  else .error .invalid
            else .error .invalid
      else .error .invalid

/-- A recursion bound that is enough for `parseJson` on a text, by mode. -/
def fuelNeeded : ParseMode → List Char → Nat
  | .value, cs => 2 * cs.length + 1
  | .elements _, cs => 2 * cs.length + 2
  | .members _, cs => 2 * cs.length + 2

/-- The host function `JSON.parse` on a text: one value between optional white
space. The recursion bound is twice the length of the text, plus two. -/
def JSON.parse (text : String) : Except ParseFailure JSValue :=
  let cs := text.toList
  match parseJson (2 * cs.length + 2) .value (skipSpace cs) with
  | .error e => .error e
  | .ok (v, rest) => if skipSpace rest = [] then .ok v else .error .invalid

/-- Whether a parsed number is the Number zero: its decimal is zero, or so small
that it rounds to zero (at most `2^-1075`, half the least positive Number). -/
def numberIsZero (digits : Nat) (exponent : Int) : Bool :=
  digits = 0 || (exponent < 0 && decide (digits * 2 ^ 1075 ≤ 10 ^ exponent.natAbs))

/-- The truth value of a parsed value as the operator `||` of line 7 sees it. -/
def truthy : JSValue → Bool
  | .null => false
  | .bool b => b
  | .number _ digits exponent => !numberIsZero digits exponent
  | .string units => !units.isEmpty
  | .array _ => true
  | .object _ => true

/-- The initial value of the state `tasks` (lines 6-8):
`JSON.parse(localStorage.getItem("tasks")) || []`, where `slot` is the content of
the storage slot, `none` when `getItem` returns `null`; `JSON.parse` converts its
argument to a string, so `null` is parsed as the text `null`. An exception is
returned as the name of its class. -/
def load (slot : Option String) : Except String JSValue :=
  let text := match slot with
    | none => "null"
    | some s => s
  match JSON.parse text with
  | .error .invalid => .error "SyntaxError"
  | .error .fuel => .error "recursion bound"
  | .ok v => .ok (if truthy v then v else .array [])

/-! ## Reordering as the specification words it -/

/-- The reordering in the specification's words: remove the item at the source
index and re-insert it at the destination index. -/
def specMove {α : Type} (xs : List α) (src dst : Nat) : List α :=
  match xs[src]? with
  | none => xs
  | some x => (xs.eraseIdx src).insertIdx dst x

/-- The visible items as the two `splice` calls of `onDragEnd` leave them, for a
source index inside the visible list. -/
def movedItems (vis : List Task) (src dst : Nat) (hs : src < vis.length) : List Task :=
  (vis.eraseIdx src).insertIdx (min dst (vis.eraseIdx src).length) vis[src]

/-! ## Sample data for the concrete instances -/

/-- The instant 2030-06-15T12:00 UTC, in milliseconds. -/
def sampleNow : Int := 1907755200000

/-- Five tasks with pairwise distinct ids: three active at `sampleNow`, one
overdue, one done. -/
def sampleTasks : List Task :=
  [ { id := "1", text := "Buy milk", deadline := "2099-01-01T10:00", done := false },
    { id := "2", text := "Pay rent", deadline := "2000-01-01T00:00", done := false },
    { id := "3", text := "Call home", deadline := "2099-06-01T09:00", done := false },
    { id := "4", text := "Book trip", deadline := "2030-06-15T12:00", done := true },
    { id := "5", text := "Write report", deadline := "2099-03-01T08:00", done := false } ]

/-- Two tasks that carry the same id, one overdue at `sampleNow` and one active. -/
def clashTasks : List Task :=
  [ { id := "7", text := "Pay rent", deadline := "2000-01-01T00:00", done := false },
    { id := "7", text := "Buy milk", deadline := "2099-01-01T10:00", done := false } ]

/-! # Theorems -/

/-! ## Reorder handler -/

theorem allDefined_map_some {α : Type} (xs : List α) : allDefined (xs.map some) = some xs := by
  induction xs with
  | nil => rfl
  | cons a as ih => simp [allDefined, ih]

theorem insertIdx_eq_take_drop {α : Type} (x : α) (xs : List α) (n : Nat) (h : n ≤ xs.length) :
    xs.insertIdx n x = xs.take n ++ [x] ++ xs.drop n := by
  induction xs generalizing n with
  | nil =>
    cases n with
    | zero => rfl
    | succ n => simp at h
  | cons a as ih =>
    cases n with
    | zero => simp
    | succ n =>
      have h' : n ≤ as.length := by simpa using h
      simp [List.insertIdx_succ_cons, ih n h']

/-- The two `splice` calls of `onDragEnd` on an array of defined slots. -/
theorem splice_move {α : Type} (xs : List α) (src dst : Nat) (hs : src < xs.length) :
    allDefined
      (splice (splice (xs.map some) src 1 []).1 dst 0
        [(splice (xs.map some) src 1 []).2.head?.join]).1
      = some ((xs.eraseIdx src).insertIdx (min dst (xs.eraseIdx src).length) xs[src]) := by
  have h1 : min src xs.length = src := Nat.min_eq_left (Nat.le_of_lt hs)
  have h2 : min 1 (xs.length - src) = 1 := Nat.min_eq_left (by omega)
  have hrem : (splice (xs.map some) src 1 []).2 = [some xs[src]] := by
    simp only [splice, List.length_map, h1, h2]
    rw [List.drop_eq_getElem_cons (by simpa using hs)]
    simp
  have hnew : (splice (xs.map some) src 1 []).1 = (xs.eraseIdx src).map some := by
    simp only [splice, List.length_map, h1, h2, List.append_nil]
    rw [List.eraseIdx_eq_take_drop_succ]
    simp [List.map_take, List.map_drop]
  rw [hrem, hnew]
  simp only [List.head?_cons, Option.join, Option.bind, id]
  rw [insertIdx_eq_take_drop _ _ _ (Nat.min_le_right _ _)]
  simp only [splice, List.length_map, Nat.min_zero, Nat.zero_min, Nat.add_zero]
  rw [← List.map_take, ← List.map_drop]
  have : List.map some (List.take (min dst (xs.eraseIdx src).length) (xs.eraseIdx src)) ++ [some xs[src]] ++
      List.map some (List.drop (min dst (xs.eraseIdx src).length) (xs.eraseIdx src))
      = List.map some (List.take (min dst (xs.eraseIdx src).length) (xs.eraseIdx src) ++ [xs[src]] ++
      List.drop (min dst (xs.eraseIdx src).length) (xs.eraseIdx src)) := by simp
  rw [this, allDefined_map_some]

theorem onDragEnd_eq (parse : String → Option Int) (now : Int) (filter : String)
    (tasks : List Task) (src dst : Nat)
    (hs : src < (visibleTasks parse now filter tasks).length) :
    onDragEnd parse now filter tasks ⟨src, some dst⟩ =
      .ok (movedItems (visibleTasks parse now filter tasks) src dst hs ++
        tasks.filter (fun t =>
          !((movedItems (visibleTasks parse now filter tasks) src dst hs).map
              (fun t => t.id)).contains t.id)) := by
  simp only [onDragEnd]
  rw [splice_move _ _ _ hs]
  rfl

theorem movedItems_perm (vis : List Task) (src dst : Nat) (hs : src < vis.length) :
    (movedItems vis src dst hs).Perm vis := by
  unfold movedItems
  refine (List.perm_insertIdx _ _ (Nat.min_le_right _ _)).trans ?_
  rw [List.eraseIdx_eq_take_drop_succ]
  have h : vis = vis.take src ++ vis[src] :: vis.drop (src + 1) := by
    conv_lhs => rw [← List.take_append_drop src vis, List.drop_eq_getElem_cons hs]
  conv_rhs => rw [h]
  exact List.perm_middle.symm

theorem movedItems_of_valid (vis : List Task) (src dst : Nat) (hs : src < vis.length)
    (hd : dst < vis.length) : movedItems vis src dst hs = specMove vis src dst := by
  have hl : (vis.eraseIdx src).length = vis.length - 1 := List.length_eraseIdx_of_lt hs
  have hm : min dst (vis.eraseIdx src).length = dst := Nat.min_eq_left (by omega)
  simp [movedItems, specMove, hm, List.getElem?_eq_getElem hs]

/-- With pairwise distinct ids, the id test of line 75 is the filter test. -/
theorem rest_eq_hidden (parse : String → Option Int) (now : Int) (filter : String)
    (tasks items : List Task) (hids : (tasks.map (fun t => t.id)).Nodup)
    (hp : items.Perm (visibleTasks parse now filter tasks)) :
    tasks.filter (fun t => !(items.map (fun t => t.id)).contains t.id) =
      tasks.filter (fun t => !isVisible parse now filter t) := by
  apply List.filter_congr
  intro t ht
  congr 1
  rw [Bool.eq_iff_iff]
  simp only [List.contains_iff_exists_mem_beq, beq_iff_eq, List.mem_map, exists_exists_and_eq_and]
  constructor
  · rintro ⟨u, hu, hut⟩
    have hu' : u ∈ visibleTasks parse now filter tasks := hp.mem_iff.mp hu
    rw [visibleTasks, List.mem_filter] at hu'
    have : u = t := List.inj_on_of_nodup_map hids hu'.1 ht hut.symm
    rw [← this]; exact hu'.2
  · intro hv
    refine ⟨t, hp.mem_iff.mpr ?_, rfl⟩
    rw [visibleTasks, List.mem_filter]
    exact ⟨ht, hv⟩

theorem isVisible_all (parse : String → Option Int) (now : Int) (t : Task) :
    isVisible parse now "all" t = true := by
  simp [isVisible]

/-! ## Ids of the task store -/

theorem digitChar_value (k : Nat) (hk : k < 10) :
    (Nat.digitChar k).isDigit = true ∧ (Nat.digitChar k).toNat - 48 = k := by
  interval_cases k <;> decide

theorem readDigits_toDigitsCore (fuel : Nat) :
    ∀ (n : Nat) (ds : List Char), n < fuel →
      (Nat.toDigitsCore 10 fuel n ds).foldl
        (fun acc c =>
          match acc with
          | none => none
          | some n => if c.isDigit then some (10 * n + (c.toNat - 48)) else none)
        (some 0)
      = ds.foldl
        (fun acc c =>
          match acc with
          | none => none
          | some n => if c.isDigit then some (10 * n + (c.toNat - 48)) else none)
        (some n) := by
  induction fuel with
  | zero => intro n ds h; omega
  | succ fuel ih =>
    intro n ds h
    have hd := digitChar_value (n % 10) (Nat.mod_lt _ (by decide))
    simp only [Nat.toDigitsCore]
    by_cases h0 : n / 10 = 0
    · rw [if_pos h0]
      have hn : n % 10 = n := Nat.mod_eq_of_lt (by omega)
      simp only [List.foldl_cons, hd.1, hd.2, if_true]
      rw [hn]; simp
    · rw [if_neg h0, ih (n / 10) _ (by omega)]
      simp only [List.foldl_cons, hd.1, hd.2, if_true]
      congr 2
      omega

theorem readDigits_toString (n : Nat) : readDigits (toString n).toList = some n := by
  have h := readDigits_toDigitsCore (n + 1) n [] (Nat.lt_succ_self n)
  simpa [readDigits, Nat.toDigits] using h

theorem toString_clock_injective {a b : Nat} (h : toString a = toString b) : a = b := by
  have ha := readDigits_toString a
  rw [h, readDigits_toString b] at ha
  exact (Option.some.inj ha).symm

theorem run_append (l : List Action) (a : Action) : run (l ++ [a]) = step (run l) a := by
  simp [run, List.foldl_append]

theorem addClocks_append (l : List Action) (a : Action) :
    addClocks (l ++ [a]) = addClocks l ++ addClocks [a] := by
  simp [addClocks, List.filterMap_append]

theorem editTask_ids (id : String) (newText : Option String) (tasks : List Task) :
    (editTask id newText tasks).map (fun t => t.id) = tasks.map (fun t => t.id) := by
  unfold editTask
  cases newText with
  | none => rfl
  | some s =>
    by_cases hs : s = ""
    · simp [hs]
    · simp only [hs, if_false, List.map_map]
      apply List.map_congr_left
      intro t _
      by_cases h : t.id = id <;> simp [h]

theorem toggleDone_ids (id : String) (tasks : List Task) :
    (toggleDone id tasks).map (fun t => t.id) = tasks.map (fun t => t.id) := by
  unfold toggleDone
  rw [List.map_map]
  apply List.map_congr_left
  intro t _
  by_cases h : t.id = id <;> simp [h]

theorem deleteTask_ids_sublist (id : String) (tasks : List Task) :
    ((deleteTask id tasks).map (fun t => t.id)).Sublist (tasks.map (fun t => t.id)) :=
  (List.filter_sublist tasks).map _

/-- Every id of the list after a run is the rendering of the clock of an add call
that created a task. -/
theorem run_ids_from_clocks (actions : List Action) :
    ∀ id ∈ (run actions).map (fun t => t.id), ∃ c ∈ addClocks actions, id = toString c := by
  induction actions using List.reverseRecOn with
  | nil => intro id h; simp [run] at h
  | append_singleton l a ih =>
    intro id h
    rw [run_append] at h
    rw [addClocks_append]
    have keep : id ∈ (run l).map (fun t => t.id) →
        ∃ c ∈ addClocks l ++ addClocks [a], id = toString c := by
      intro h'
      obtain ⟨c, hc, e⟩ := ih id h'
      exact ⟨c, List.mem_append_left _ hc, e⟩
    cases a with
    | add clock text deadline =>
      by_cases he : text = "" ∨ deadline = ""
      · simp only [step, addTask, if_pos he] at h
        exact keep h
      · simp only [step, addTask, if_neg he, List.map_append, List.mem_append, List.map_cons,
          List.map_nil, List.mem_singleton] at h
        rcases h with h | h
        · exact keep h
        · exact ⟨clock, List.mem_append_right _ (by simp [addClocks, he]), h⟩
    | delete id' => exact keep ((deleteTask_ids_sublist id' (run l)).subset h)
    | edit id' newText =>
      simp only [step, editTask_ids] at h
      exact keep h
    | toggle id' =>
      simp only [step, toggleDone_ids] at h
      exact keep h

theorem run_ids_nodup (actions : List Action) (hc : (addClocks actions).Nodup) :
    ((run actions).map (fun t => t.id)).Nodup := by
  induction actions using List.reverseRecOn with
  | nil => simp [run]
  | append_singleton l a ih =>
    rw [addClocks_append] at hc
    have hl : (addClocks l).Nodup := (List.nodup_append.mp hc).1
    have ih' := ih hl
    rw [run_append]
    cases a with
    | add clock text deadline =>
      by_cases he : text = "" ∨ deadline = ""
      · simpa only [step, addTask, if_pos he] using ih'
      · simp only [step, addTask, if_neg he, List.map_append, List.map_cons, List.map_nil]
        rw [List.nodup_append]
        refine ⟨ih', List.nodup_singleton _, ?_⟩
        intro id h1 h2
        rw [List.mem_singleton] at h2
        obtain ⟨c, hcm, e⟩ := run_ids_from_clocks l id h1
        have hcc : c = clock := toString_clock_injective (e.symm.trans h2)
        have hd := (List.nodup_append.mp hc).2.2
        exact hd (hcc ▸ hcm) (by simp [addClocks, he])
    | delete id' => exact ih'.sublist (deleteTask_ids_sublist id' (run l))
    | edit id' newText => simpa only [step, editTask_ids] using ih'
    | toggle id' => simpa only [step, toggleDone_ids] using ih'

theorem mem_addClocks {actions : List Action} {c : Nat} (h : c ∈ addClocks actions) :
    ∃ text deadline, Action.add c text deadline ∈ actions ∧ text ≠ "" ∧ deadline ≠ "" := by
  simp only [addClocks, List.mem_filterMap] at h
  obtain ⟨a, ha, e⟩ := h
  cases a with
  | add clock text deadline =>
    by_cases he : text = "" ∨ deadline = ""
    · simp [he] at e
    · simp only [he, if_false, Option.some.injEq] at e
      subst e
      exact ⟨text, deadline, ha, fun h => he (Or.inl h), fun h => he (Or.inr h)⟩
  | delete id => simp at e
  | edit id newText => simp at e
  | toggle id => simp at e

/-- Counterexample to C3 as stated: two add calls at the same clock reading 7
leave two tasks with the id `7` in the list, so the ids are not unique. -/
theorem ids_clash_same_clock :
    ¬ ((run [Action.add 7 "Pay rent" "2000-01-01T00:00",
        Action.add 7 "Buy milk" "2099-01-01T10:00"]).map (fun t => t.id)).Nodup := by
  decide

/-- C3, amended. Starting from the empty list, after every sequence of
add/delete/edit/toggle actions, every task id in the final list is the rendering
of the clock of an add call of the sequence that had a non-empty text and
deadline; and when the add calls that create a task happen at pairwise distinct
clock readings, no two tasks of the final list share an id. -/
theorem run_ids_unique_and_added (actions : List Action) :
    (∀ id ∈ (run actions).map (fun t => t.id),
      ∃ clock text deadline, Action.add clock text deadline ∈ actions ∧ text ≠ "" ∧
        deadline ≠ "" ∧ id = toString clock) ∧
    ((addClocks actions).Nodup → ((run actions).map (fun t => t.id)).Nodup) := by
  refine ⟨?_, run_ids_nodup actions⟩
  intro id h
  obtain ⟨c, hc, e⟩ := run_ids_from_clocks actions id h
  obtain ⟨text, deadline, hm, ht, hd⟩ := mem_addClocks hc
  exact ⟨c, text, deadline, hm, ht, hd, e⟩

/-- Instance of C3, amended: six actions whose adds happen at the clock readings
7 and 8 (the add at 9 has an empty text) leave a list with unique ids. -/
theorem run_ids_unique_and_added_witness :
    ((run [Action.add 7 "Pay rent" "2000-01-01T00:00",
        Action.add 8 "Buy milk" "2099-01-01T10:00", Action.toggle "7",
        Action.edit "8" (some "Buy oat milk"), Action.add 9 "" "2099-01-01T10:00",
        Action.delete "7"]).map (fun t => t.id)).Nodup :=
  (run_ids_unique_and_added _).2 (by decide)

/-- C1. For a task list with pairwise distinct ids, a filter mode other than
`all`, any current time, and source and destination indices that are positions
of the visible list, `onDragEnd` returns the visible tasks with the item at the
source index removed and re-inserted at the destination index, followed by the
filtered-out tasks in their original relative order. -/
theorem onDragEnd_filtered_order (parse : String → Option Int) (now : Int) (filter : String)
    (tasks : List Task) (src dst : Nat)
    (hids : (tasks.map (fun t => t.id)).Nodup)
    (_hfilter : filter ≠ "all")
    (hs : src < (visibleTasks parse now filter tasks).length)
    (hd : dst < (visibleTasks parse now filter tasks).length) :
    onDragEnd parse now filter tasks ⟨src, some dst⟩ =
      .ok (specMove (visibleTasks parse now filter tasks) src dst ++
        tasks.filter (fun t => !isVisible parse now filter t)) := by
  rw [onDragEnd_eq parse now filter tasks src dst hs,
    rest_eq_hidden parse now filter tasks _ hids (movedItems_perm _ src dst hs),
    movedItems_of_valid _ src dst hs hd]

/-- Instance of C1: under filter `active`, moving visible index 2 to index 0 in
`sampleTasks` puts the three active tasks first, reordered, then the overdue
and the done task in their original order. -/
theorem onDragEnd_filtered_order_witness :
    onDragEnd parseUTC sampleNow "active" sampleTasks ⟨2, some 0⟩ =
      .ok [ { id := "5", text := "Write report", deadline := "2099-03-01T08:00", done := false },
            { id := "1", text := "Buy milk", deadline := "2099-01-01T10:00", done := false },
            { id := "3", text := "Call home", deadline := "2099-06-01T09:00", done := false },
            { id := "2", text := "Pay rent", deadline := "2000-01-01T00:00", done := false },
            { id := "4", text := "Book trip", deadline := "2030-06-15T12:00", done := true } ] :=
  (onDragEnd_filtered_order parseUTC sampleNow "active" sampleTasks 2 0
    (by decide) (by decide) (by decide) (by decide)).trans (congrArg Except.ok (by decide))

/-- C7. Under filter `all`, for every task list and source and destination
indices that are positions of the list, `onDragEnd` returns the list with the
element at the source index removed and re-inserted at the destination index,
and nothing is appended after it. -/
theorem onDragEnd_all_order (parse : String → Option Int) (now : Int)
    (tasks : List Task) (src dst : Nat)
    (hs : src < tasks.length) (hd : dst < tasks.length) :
    onDragEnd parse now "all" tasks ⟨src, some dst⟩ = .ok (specMove tasks src dst) := by
  have hv : visibleTasks parse now "all" tasks = tasks := by
    rw [visibleTasks, List.filter_eq_self]
    intro t _
    exact isVisible_all parse now t
  have hs' : src < (visibleTasks parse now "all" tasks).length := by rw [hv]; exact hs
  have hd' : dst < (visibleTasks parse now "all" tasks).length := by rw [hv]; exact hd
  rw [onDragEnd_eq parse now "all" tasks src dst hs']
  have hrest : tasks.filter (fun t =>
      !((movedItems (visibleTasks parse now "all" tasks) src dst hs').map
        (fun t => t.id)).contains t.id) = [] := by
    rw [List.filter_eq_nil_iff]
    intro t ht
    have hm : t ∈ movedItems (visibleTasks parse now "all" tasks) src dst hs' :=
      (movedItems_perm _ src dst hs').mem_iff.mpr (by rw [hv]; exact ht)
    simp only [Bool.not_eq_true, Bool.not_eq_false', List.contains_iff_exists_mem_beq,
      beq_iff_eq, List.mem_map, exists_exists_and_eq_and]
    exact ⟨t, hm, rfl⟩
  rw [hrest, List.append_nil, movedItems_of_valid _ src dst hs' hd', hv]

/-- Instance of C7, the one the specification names: under filter `all`, moving
index 2 to index 0 in `sampleTasks`. -/
theorem onDragEnd_all_order_witness :
    onDragEnd parseUTC sampleNow "all" sampleTasks ⟨2, some 0⟩ =
      .ok [ { id := "3", text := "Call home", deadline := "2099-06-01T09:00", done := false },
            { id := "1", text := "Buy milk", deadline := "2099-01-01T10:00", done := false },
            { id := "2", text := "Pay rent", deadline := "2000-01-01T00:00", done := false },
            { id := "4", text := "Book trip", deadline := "2030-06-15T12:00", done := true },
            { id := "5", text := "Write report", deadline := "2099-03-01T08:00", done := false } ] :=
  (onDragEnd_all_order parseUTC sampleNow sampleTasks 2 0 (by decide) (by decide)).trans
    (congrArg Except.ok (by decide))

/-- C10. There is a task list in which a filtered-out task shares its id with a
visible task, a filter mode other than `all` and valid indices, for which the
list returned by `onDragEnd` is strictly shorter than the input and omits the
filtered-out task; whereas for every task list with pairwise distinct ids and
every source index inside the visible list, `onDragEnd` returns a list of the
same length as the input. -/
theorem onDragEnd_length_needs_distinct_ids :
    (∃ (tasks : List Task) (filter : String) (src dst : Nat) (hidden shown : Task)
        (r : List Task),
        filter ≠ "all" ∧
        src < (visibleTasks parseUTC sampleNow filter tasks).length ∧
        dst < (visibleTasks parseUTC sampleNow filter tasks).length ∧
        hidden ∈ tasks ∧ isVisible parseUTC sampleNow filter hidden = false ∧
        shown ∈ tasks ∧ isVisible parseUTC sampleNow filter shown = true ∧
        hidden.id = shown.id ∧
        onDragEnd parseUTC sampleNow filter tasks ⟨src, some dst⟩ = .ok r ∧
        r.length < tasks.length ∧ hidden ∉ r) ∧
    (∀ (parse : String → Option Int) (now : Int) (filter : String) (tasks : List Task)
        (src dst : Nat),
        (tasks.map (fun t => t.id)).Nodup →
        src < (visibleTasks parse now filter tasks).length →
        ∃ r, onDragEnd parse now filter tasks ⟨src, some dst⟩ = .ok r ∧
          r.length = tasks.length) := by
  constructor
  · refine ⟨clashTasks, "overdue", 0, 0,
      { id := "7", text := "Buy milk", deadline := "2099-01-01T10:00", done := false },
      { id := "7", text := "Pay rent", deadline := "2000-01-01T00:00", done := false },
      [{ id := "7", text := "Pay rent", deadline := "2000-01-01T00:00", done := false }],
      by decide, by decide, by decide, by decide, by decide, by decide, by decide, rfl,
      by rfl, by decide, by decide⟩
  · intro parse now filter tasks src dst hids hs
    refine ⟨_, onDragEnd_eq parse now filter tasks src dst hs, ?_⟩
    rw [rest_eq_hidden parse now filter tasks _ hids (movedItems_perm _ src dst hs),
      List.length_append, (movedItems_perm _ src dst hs).length_eq, visibleTasks,
      ← List.length_append]
    exact (List.filter_append_perm (isVisible parse now filter) tasks).length_eq

/-- Instance of C10 on distinct ids: under filter `done`, a drag inside
`sampleTasks` returns a list as long as `sampleTasks`. -/
theorem onDragEnd_length_needs_distinct_ids_witness :
    ∃ r, onDragEnd parseUTC sampleNow "done" sampleTasks ⟨0, some 0⟩ = .ok r ∧
      r.length = sampleTasks.length :=
  onDragEnd_length_needs_distinct_ids.2 parseUTC sampleNow "done" sampleTasks 0 0
    (by decide) (by decide)

/-! ## View filter -/

/-- C2. For every task list and current time, every task of the list is in
exactly one of the `active`, `overdue` and `done` filter results; the three
results are pairwise disjoint; together they are a rearrangement of the full
list; and no task with `done = true` is in the `overdue` result. -/
theorem view_filter_partition (parse : String → Option Int) (now : Int) (tasks : List Task) :
    (∀ t ∈ tasks,
      (t ∈ visibleTasks parse now "active" tasks ∧ t ∉ visibleTasks parse now "overdue" tasks
          ∧ t ∉ visibleTasks parse now "done" tasks) ∨
      (t ∉ visibleTasks parse now "active" tasks ∧ t ∈ visibleTasks parse now "overdue" tasks
          ∧ t ∉ visibleTasks parse now "done" tasks) ∨
      (t ∉ visibleTasks parse now "active" tasks ∧ t ∉ visibleTasks parse now "overdue" tasks
          ∧ t ∈ visibleTasks parse now "done" tasks)) ∧
    (visibleTasks parse now "active" tasks).Disjoint (visibleTasks parse now "overdue" tasks) ∧
    (visibleTasks parse now "active" tasks).Disjoint (visibleTasks parse now "done" tasks) ∧
    (visibleTasks parse now "overdue" tasks).Disjoint (visibleTasks parse now "done" tasks) ∧
    (visibleTasks parse now "active" tasks ++ visibleTasks parse now "overdue" tasks ++
        visibleTasks parse now "done" tasks).Perm tasks ∧
    (∀ t, t.done = true → t ∉ visibleTasks parse now "overdue" tasks) := by
  have ha : ∀ t, isVisible parse now "active" t = (!t.done && !isOverdue parse now t) := by
    intro t; simp [isVisible]
  have ho : ∀ t, isVisible parse now "overdue" t = isOverdue parse now t := by
    intro t; simp [isVisible]
  have hd : ∀ t, isVisible parse now "done" t = t.done := by
    intro t; simp [isVisible]
  have hod : ∀ t, isOverdue parse now t = true → t.done = false := by
    intro t h
    simp only [isOverdue, Bool.and_eq_true, Bool.not_eq_true'] at h
    exact h.1
  refine ⟨?_, ?_, ?_, ?_, ?_, ?_⟩
  · intro t ht
    simp only [visibleTasks, List.mem_filter, ht, true_and, ha, ho, hd]
    cases hdone : t.done <;> cases hov : isOverdue parse now t <;> simp_all
  · intro t h1 h2
    simp only [visibleTasks, List.mem_filter, ha, ho] at h1 h2
    simp_all
  · intro t h1 h2
    simp only [visibleTasks, List.mem_filter, ha, hd] at h1 h2
    simp_all
  · intro t h1 h2
    simp only [visibleTasks, List.mem_filter, ho, hd] at h1 h2
    have := hod t h1.2
    simp_all
  · rw [List.perm_iff_count]
    intro t
    simp only [List.count_append, visibleTasks]
    have hc : ∀ p : Task → Bool, List.count t (tasks.filter p)
        = if p t then List.count t tasks else 0 := by
      intro p
      by_cases hp : p t = true
      · rw [if_pos hp, List.count_filter hp]
      · rw [if_neg hp, List.count_eq_zero]
        intro hmem
        exact hp (List.mem_filter.mp hmem).2
    rw [hc, hc, hc, ha, ho, hd]
    cases hdone : t.done <;> cases hov : isOverdue parse now t <;> simp_all
  · intro t hdone h
    simp only [visibleTasks, List.mem_filter, ho] at h
    have := hod t h.2
    simp_all

/-! ## Handlers, reminder and load -/

/-- C8. Applying `toggleDone id` twice gives back the original list: every
task, every field and the order are unchanged. -/
theorem toggleDone_twice (id : String) (tasks : List Task) :
    toggleDone id (toggleDone id tasks) = tasks := by
  unfold toggleDone
  rw [List.map_map]
  conv_rhs => rw [← List.map_id tasks]
  apply List.map_congr_left
  intro t _
  by_cases h : t.id = id
  · cases t; simp_all
  · simp [h]

/-- C6. When the text or the deadline is empty, `addTask` returns the task list
unchanged; otherwise it returns the original list followed by exactly one new
task with that text, that deadline and `done = false`. -/
theorem addTask_spec (clock : Nat) (text deadline : String) (tasks : List Task) :
    ((text = "" ∨ deadline = "") → addTask clock text deadline tasks = tasks) ∧
    (¬ (text = "" ∨ deadline = "") →
      ∃ t : Task, addTask clock text deadline tasks = tasks ++ [t] ∧
        t.text = text ∧ t.deadline = deadline ∧ t.done = false) := by
  constructor
  · intro h; simp [addTask, h]
  · intro h
    refine ⟨{ id := toString clock, text := text, deadline := deadline, done := false },
      ?_, rfl, rfl, rfl⟩
    rw [addTask, if_neg h]

/-- Instance of C6 on `sampleTasks`: an empty text, an empty deadline, and a
task that is added. -/
theorem addTask_spec_witness :
    addTask 7 "" "2099-01-01T10:00" sampleTasks = sampleTasks ∧
    addTask 7 "Buy milk" "" sampleTasks = sampleTasks ∧
    ∃ t : Task, addTask 7 "Water plants" "2099-01-01T10:00" sampleTasks = sampleTasks ++ [t] ∧
      t.text = "Water plants" ∧ t.deadline = "2099-01-01T10:00" ∧ t.done = false :=
  ⟨(addTask_spec 7 "" "2099-01-01T10:00" sampleTasks).1 (by decide),
   (addTask_spec 7 "Buy milk" "" sampleTasks).1 (by decide),
   (addTask_spec 7 "Water plants" "2099-01-01T10:00" sampleTasks).2 (by decide)⟩

/-- The alerts of one tick: one for each task that passes the test of line 24,
in list order, whatever its `done` flag. -/
theorem reminderTick_eq (parse : String → Option Int) (now : Int) (tasks : List Task) :
    reminderTick parse now tasks = (tasks.filter (dueSoon parse now)).map reminderText := by
  unfold reminderTick
  suffices h : ∀ acc : List String,
      tasks.foldl (fun alerts task =>
        if dueSoon parse now task then alerts ++ [reminderText task] else alerts) acc
      = acc ++ (tasks.filter (dueSoon parse now)).map reminderText by
    simpa using h []
  induction tasks with
  | nil => intro acc; simp
  | cons t ts ih =>
    intro acc
    rw [List.foldl_cons, ih]
    by_cases h : dueSoon parse now t
    · simp [h]
    · simp [h]

/-- C4, the code at the failing input: a task whose `done` flag is true and
whose deadline is 30 seconds after the tick is alerted, since line 24 does not
read `done`. -/
theorem reminder_alerts_done_task :
    reminderTick parseUTC (sampleNow - 30000)
      [{ id := "4", text := "Book trip", deadline := "2030-06-15T12:00", done := true }]
      = ["Reminder: \"Book trip\" is due soon!"] := by
  decide

/-- C9. The reminder does not suppress a second alert: for a task of the list
that is not done and whose deadline minus the tick time `now` lies strictly
between 30000 and 60000 ms, an alert naming it is raised on the tick at `now`
and again, with the list unchanged, on the next tick at `now + 30000`. -/
theorem reminder_alerts_on_two_ticks (parse : String → Option Int) (now d : Int)
    (tasks : List Task) (task : Task)
    (hmem : task ∈ tasks) (_hdone : task.done = false)
    (hparse : parse task.deadline = some d)
    (hlow : 30000 < d - now) (hhigh : d - now < 60000) :
    reminderText task ∈ reminderTick parse now tasks ∧
    reminderText task ∈ reminderTick parse (now + 30000) tasks := by
  have h1 : dueSoon parse now task = true := by
    simp only [dueSoon, dateDiff, hparse, Bool.and_eq_true, decide_eq_true_eq]
    constructor <;> omega
  have h2 : dueSoon parse (now + 30000) task = true := by
    simp only [dueSoon, dateDiff, hparse, Bool.and_eq_true, decide_eq_true_eq]
    constructor <;> omega
  rw [reminderTick_eq, reminderTick_eq]
  exact ⟨List.mem_map_of_mem _ (List.mem_filter.mpr ⟨hmem, h1⟩),
    List.mem_map_of_mem _ (List.mem_filter.mpr ⟨hmem, h2⟩)⟩

/-- Instance of C9: the task `Buy milk` of `sampleTasks`, due 45 seconds after
the first tick, is alerted on that tick and on the next. -/
theorem reminder_alerts_on_two_ticks_witness :
    reminderText { id := "1", text := "Buy milk", deadline := "2099-01-01T10:00", done := false }
      ∈ reminderTick parseUTC 4070944755000 sampleTasks ∧
    reminderText { id := "1", text := "Buy milk", deadline := "2099-01-01T10:00", done := false }
      ∈ reminderTick parseUTC (4070944755000 + 30000) sampleTasks :=
  reminder_alerts_on_two_ticks parseUTC 4070944755000 4070944800000 sampleTasks
    { id := "1", text := "Buy milk", deadline := "2099-01-01T10:00", done := false }
    (by decide) rfl (by decide) (by decide) (by decide)

/-! ## The recursion bound of the JSON reader -/

theorem skipSpace_length (cs : List Char) : (skipSpace cs).length ≤ cs.length := by
  induction cs with
  | nil => simp [skipSpace]
  | cons c cs ih =>
    simp only [skipSpace]
    split
    · simp only [List.length_cons]; omega
    · exact Nat.le_refl _

theorem spanDigits_length (cs : List Char) :
    (spanDigits cs).1.length + (spanDigits cs).2.length = cs.length := by
  induction cs with
  | nil => simp [spanDigits]
  | cons c cs ih =>
    simp only [spanDigits]
    split
    · simp only [List.length_cons]; omega
    · simp

theorem length_drop_one_of_head {cs : List Char} {c : Char} (h : cs.head? = some c) :
    (cs.drop 1).length + 1 = cs.length := by
  cases cs with
  | nil => simp at h
  | cons a as => simp

theorem parseStringBody_rest (cs : List Char) :
    ∀ (acc : List Nat) (skip : Nat) (s : List Nat) (rest : List Char),
      parseStringBody cs acc skip = some (s, rest) → rest.length < cs.length := by
  induction cs with
  | nil => intro acc skip s rest h; simp [parseStringBody] at h
  | cons c cs ih =>
    intro acc skip s rest h
    simp only [List.length_cons]
    cases skip with
    | succ k =>
      rw [parseStringBody] at h
      have := ih _ _ _ _ h
      omega
    | zero =>
      rw [parseStringBody] at h
      split at h
      · simp only [Option.some.injEq, Prod.mk.injEq] at h
        rw [← h.2]; omega
      · split at h
        · split at h
          · simp at h
          · have := ih _ _ _ _ h
            omega
        · split at h
          · simp at h
          · have := ih _ _ _ _ h
            omega

theorem parseNumber_rest (cs : List Char) (v : JSValue) (rest : List Char)
    (h : parseNumber cs = some (v, rest)) : rest.length < cs.length := by
  unfold parseNumber at h
  simp only at h
  have hcs1 : (if cs.head? = some '-' then cs.drop 1 else cs).length ≤ cs.length := by
    split
    · simp
    · exact Nat.le_refl _
  generalize (if cs.head? = some '-' then cs.drop 1 else cs) = cs1 at h hcs1
  have hip : (if cs1.head? = some '0' then (['0'], cs1.drop 1) else spanDigits cs1).1 ≠ [] →
      (if cs1.head? = some '0' then (['0'], cs1.drop 1) else spanDigits cs1).2.length
        < cs1.length := by
    split
    · rename_i h0
      intro _
      have := length_drop_one_of_head h0
      simp only; omega
    · intro hne
      have := spanDigits_length cs1
      have : 0 < (spanDigits cs1).1.length := List.length_pos.mpr hne
      omega
  generalize (if cs1.head? = some '0' then (['0'], cs1.drop 1) else spanDigits cs1) = ip
    at h hip
  split at h
  · simp at h
  · rename_i hne
    have hip' := hip hne
    have hfp : ∀ f, (if ip.2.head? = some '.' then some (spanDigits (ip.2.drop 1)) else none)
        = some f → f.2.length ≤ ip.2.length := by
      intro f hf
      split at hf
      · simp only [Option.some.injEq] at hf
        rw [← hf]
        have := spanDigits_length (ip.2.drop 1)
        have : (ip.2.drop 1).length ≤ ip.2.length := by simp
        omega
      · simp at hf
    generalize (if ip.2.head? = some '.' then some (spanDigits (ip.2.drop 1)) else none) = fp
      at h hfp
    have hcs2 : (match fp with | some f => f.2 | none => ip.2).length ≤ ip.2.length := by
      cases fp with
      | none => exact Nat.le_refl _
      | some f => exact hfp f rfl
    generalize (match fp with | some f => f.2 | none => ip.2) = cs2 at h hcs2
    split at h
    · simp at h
    · split at h
      · have hcs4 : (if (cs2.drop 1).head? = some '-' ∨ (cs2.drop 1).head? = some '+'
            then (cs2.drop 1).drop 1 else cs2.drop 1).length ≤ cs2.length := by
          split
          · simp
          · simp
        generalize (if (cs2.drop 1).head? = some '-' ∨ (cs2.drop 1).head? = some '+'
            then (cs2.drop 1).drop 1 else cs2.drop 1) = cs4 at h hcs4
        split at h
        · simp at h
        · simp only [Option.some.injEq, Prod.mk.injEq] at h
          rw [← h.2]
          have := spanDigits_length cs4
          omega
      · simp only [Option.some.injEq, Prod.mk.injEq] at h
        rw [← h.2]
        omega

theorem skipSpace_cons_length {cs : List Char} {d : Char} {r : List Char}
    (h : skipSpace cs = d :: r) : r.length < cs.length := by
  have := skipSpace_length cs
  rw [h] at this
  simp only [List.length_cons] at this
  omega

theorem parseJson_rest (fuel : Nat) :
    ∀ (mode : ParseMode) (cs : List Char) (v : JSValue) (rest : List Char),
      parseJson fuel mode cs = .ok (v, rest) → rest.length < cs.length := by
  induction fuel with
  | zero => intro mode cs v rest h; simp [parseJson] at h
  | succ fuel ih =>
    intro mode cs v rest h
    cases mode with
    | value =>
      cases cs with
      | nil => simp [parseJson] at h
      | cons c rest0 =>
        rw [parseJson] at h
        simp only [List.length_cons]
        split at h
        · split at h
          · simp at h
          · rename_i d rest1 hsk
            have h1 := skipSpace_cons_length hsk
            split at h
            · simp only [Except.ok.injEq, Prod.mk.injEq] at h
              rw [← h.2]; omega
            · have h2 := ih _ _ _ _ h
              simp only [List.length_cons] at h2
              omega
        · split at h
          · split at h
            · simp at h
            · rename_i d rest1 hsk
              have h1 := skipSpace_cons_length hsk
              split at h
              · simp only [Except.ok.injEq, Prod.mk.injEq] at h
                rw [← h.2]; omega
              · have h2 := ih _ _ _ _ h
                simp only [List.length_cons] at h2
                omega
          · split at h
            · split at h
              · rename_i s rest1 hs
                have h1 := parseStringBody_rest _ _ _ _ _ hs
                simp only [Except.ok.injEq, Prod.mk.injEq] at h
                rw [← h.2]; omega
              · simp at h
            · split at h
              · split at h
                · simp only [Except.ok.injEq, Prod.mk.injEq] at h
                  rw [← h.2, List.length_drop]; omega
                · simp at h
              · split at h
                · split at h
                  · simp only [Except.ok.injEq, Prod.mk.injEq] at h
                    rw [← h.2, List.length_drop]; omega
                  · simp at h
                · split at h
                  · split at h
                    · simp only [Except.ok.injEq, Prod.mk.injEq] at h
                      rw [← h.2, List.length_drop]; omega
                    · simp at h
                  · split at h
                    · rename_i r hn
                      have h1 := parseNumber_rest _ _ _ hn
                      simp only [Except.ok.injEq] at h
                      rw [h] at h1
                      simp only [List.length_cons] at h1
                      omega
                    · simp at h
    | elements acc =>
      rw [parseJson] at h
      split at h
      · simp at h
      · rename_i v1 rest1 hv
        have h1 := ih _ _ _ _ hv
        split at h
        · simp at h
        · rename_i d rest2 hsk
          have h2 := skipSpace_cons_length hsk
          split at h
          · have h3 := ih _ _ _ _ h
            have h4 := skipSpace_length rest2
            omega
          · split at h
            · simp only [Except.ok.injEq, Prod.mk.injEq] at h
              rw [← h.2]; omega
            · simp at h
    | members acc =>
      cases cs with
      | nil => simp [parseJson] at h
      | cons q rest0 =>
        rw [parseJson] at h
        simp only [List.length_cons]
        split at h
        · split at h
          · simp at h
          · rename_i key rest1 hs
            have h1 := parseStringBody_rest _ _ _ _ _ hs
            split at h
            · simp at h
            · rename_i colon rest2 hsk
              have h2 := skipSpace_cons_length hsk
              split at h
              · split at h
                · simp at h
                · rename_i v1 rest3 hv
                  have h3 := ih _ _ _ _ hv
                  have h4 := skipSpace_length rest2
                  split at h
                  · simp at h
                  · rename_i d rest4 hsk2
                    have h5 := skipSpace_cons_length hsk2
                    split at h
                    · have h6 := ih _ _ _ _ h
                      have h7 := skipSpace_length rest4
                      omega
                    · split at h
                      · simp only [Except.ok.injEq, Prod.mk.injEq] at h
                        rw [← h.2]; omega
                      · simp at h
              · simp at h
        · simp at h

theorem parseJson_fuel (fuel : Nat) :
    ∀ (mode : ParseMode) (cs : List Char), fuelNeeded mode cs ≤ fuel →
      parseJson fuel mode cs ≠ .error .fuel := by
  induction fuel with
  | zero =>
    intro mode cs hf
    cases mode <;> simp [fuelNeeded] at hf
  | succ fuel ih =>
    intro mode cs hf h
    cases mode with
    | value =>
      cases cs with
      | nil => simp [parseJson] at h
      | cons c rest0 =>
        rw [parseJson] at h
        simp only [fuelNeeded, List.length_cons] at hf
        split at h
        · split at h
          · simp at h
          · rename_i d rest1 hsk
            have h1 := skipSpace_cons_length hsk
            split at h
            · simp at h
            · refine ih _ _ ?_ h
              simp only [fuelNeeded, List.length_cons]; omega
        · split at h
          · split at h
            · simp at h
            · rename_i d rest1 hsk
              have h1 := skipSpace_cons_length hsk
              split at h
              · simp at h
              · refine ih _ _ ?_ h
                simp only [fuelNeeded, List.length_cons]; omega
          · split at h
            · split at h <;> simp at h
            · split at h
              · split at h <;> simp at h
              · split at h
                · split at h <;> simp at h
                · split at h
                  · split at h <;> simp at h
                  · split at h <;> simp at h
    | elements acc =>
      rw [parseJson] at h
      simp only [fuelNeeded] at hf
      split at h
      · rename_i e he
        simp only [Except.error.injEq] at h
        rw [h] at he
        refine ih _ _ ?_ he
        simp only [fuelNeeded]; omega
      · rename_i v1 rest1 hv
        have h1 := parseJson_rest _ _ _ _ _ hv
        split at h
        · simp at h
        · rename_i d rest2 hsk
          have h2 := skipSpace_cons_length hsk
          have h4 := skipSpace_length rest2
          split at h
          · refine ih _ _ ?_ h
            simp only [fuelNeeded]; omega
          · split at h <;> simp at h
    | members acc =>
      cases cs with
      | nil => simp [parseJson] at h
      | cons q rest0 =>
        rw [parseJson] at h
        simp only [fuelNeeded, List.length_cons] at hf
        split at h
        · split at h
          · simp at h
          · rename_i key rest1 hs
            have h1 := parseStringBody_rest _ _ _ _ _ hs
            split at h
            · simp at h
            · rename_i colon rest2 hsk
              have h2 := skipSpace_cons_length hsk
              have h4 := skipSpace_length rest2
              split at h
              · split at h
                · rename_i e he
                  simp only [Except.error.injEq] at h
                  rw [h] at he
                  refine ih _ _ ?_ he
                  simp only [fuelNeeded]; omega
                · rename_i v1 rest3 hv
                  have h3 := parseJson_rest _ _ _ _ _ hv
                  split at h
                  · simp at h
                  · rename_i d rest4 hsk2
                    have h5 := skipSpace_cons_length hsk2
                    have h7 := skipSpace_length rest4
                    split at h
                    · refine ih _ _ ?_ h
                      simp only [fuelNeeded]; omega
                    · split at h <;> simp at h
              · simp at h
        · simp at h

/-- The recursion bound of `JSON.parse` is never reached: a failure of it is a
`SyntaxError`. -/
theorem JSON.parse_fuel (text : String) : JSON.parse text ≠ .error .fuel := by
  intro h
  unfold JSON.parse at h
  simp only at h
  split at h
  · rename_i e he
    simp only [Except.error.injEq] at h
    rw [h] at he
    refine parseJson_fuel _ _ _ ?_ he
    have := skipSpace_length text.toList
    simp only [fuelNeeded]; omega
  · split at h <;> simp at h

/-- Loading returns a value or throws a `SyntaxError`. -/
theorem load_total (slot : Option String) :
    (∃ v, load slot = .ok v) ∨ load slot = .error "SyntaxError" := by
  unfold load
  simp only
  split
  · exact Or.inr rfl
  · rename_i h
    exact absurd h (JSON.parse_fuel _)
  · exact Or.inl ⟨_, rfl⟩

/-- The reader accepts what `JSON.stringify` writes: the text of a one-task list
loads as an array of one object with the four members of a task. -/
theorem load_serialized_list :
    load (some "[\x7b\"id\":\"7\",\"text\":\"a\",\"deadline\":\"d\",\"done\":false\x7d]") =
      .ok (.array [.object [([105, 100], .string [55]),
        ([116, 101, 120, 116], .string [97]),
        ([100, 101, 97, 100, 108, 105, 110, 101], .string [100]),
        ([100, 111, 110, 101], .bool false)]]) := by
  rfl

/-- Counterexample to C5 as stated: a slot that holds a truncated serialized
task list makes the load throw a `SyntaxError`; the initial list is not empty,
there is none. -/
theorem load_truncated_text_throws :
    load (some "[\x7b\"id\":\"1700000000000\",\"text\":\"Buy milk\"") = .error "SyntaxError" := by
  rfl

/-- C5, amended. When the storage slot is absent, and when it holds the JSON
text of a falsy value (`null`, `false`, `0`, the empty string), the initial task
list is the empty list and no error is raised; when it holds a text that is not
well-formed JSON, the load throws a `SyntaxError`. -/
theorem load_absent_or_invalid :
    load none = .ok (.array []) ∧
    (∀ (s : String) (v : JSValue), JSON.parse s = .ok v → truthy v = false →
      load (some s) = .ok (.array [])) ∧
    (∀ s : String, (∀ v : JSValue, JSON.parse s ≠ .ok v) →
      load (some s) = .error "SyntaxError") := by
  refine ⟨rfl, ?_, ?_⟩
  · intro s v h hv
    simp only [load, h, hv]
    rfl
  · intro s h
    rcases load_total (some s) with ⟨v, hv⟩ | he
    · exfalso
      simp only [load] at hv
      split at hv
      · simp at hv
      · simp at hv
      · rename_i w hw
        exact h w hw
    · exact he

/-- Instance of C5, amended: a lone opening brace throws, the text `null`
between spaces loads the empty list. -/
theorem load_absent_or_invalid_witness :
    load (some "\x7b") = .error "SyntaxError" ∧ load (some " null ") = .ok (.array []) :=
  ⟨load_absent_or_invalid.2.2 "\x7b" (by
      intro v h
      have h2 : JSON.parse "\x7b" = .error .invalid := rfl
      rw [h2] at h
      cases h),
    load_absent_or_invalid.2.1 " null " .null rfl rfl⟩

end TodoApp
